import Mathlib

set_option maxHeartbeats 1000000

/-!
Verification development for the flac-to-opus transcoding tool
(src/flac_to_opus/main.py, class TranscoderTool).

The Python code is shallowly embedded: pure decision logic becomes Lean
functions, filesystem contents and external-process behaviour are explicit
inputs, and Python exceptions become `Except` values.  Line numbers in the
doc comments refer to src/flac_to_opus/main.py.
-/

namespace FlacToOpus

/-- Python strings are modelled as lists of characters. -/
abbrev PyStr := List Char

/-- Characters for which Python `str.isdigit` returns True on a single
character.  Python accepts every character whose Unicode Numeric_Type is
Digit or Decimal; this model covers the ASCII digits, the superscript
digits U+00B9/U+00B2/U+00B3 and the Arabic-Indic digits U+0660..U+0669,
and returns false on all other characters appearing in this development. -/
def py_isdigit_char (c : Char) : Bool :=
  c.isDigit || c == '²' || c == '³' || c == '¹' ||
    (decide (0x660 ≤ c.toNat) && decide (c.toNat ≤ 0x669))

/-- Python `s.isdigit()`: false on the empty string, otherwise true iff
every character is a digit character. -/
def py_str_isdigit (s : PyStr) : Bool :=
  !s.isEmpty && s.all py_isdigit_char

/-- Python `s.lower()` (per-character lowering suffices for the ASCII
names handled here). -/
def py_lower (s : PyStr) : PyStr := s.map Char.toLower

/-- Python `s.endswith(t)`. -/
def py_endswith (s t : PyStr) : Bool := t.isSuffixOf s

/-- Index of the last '.' in a name, as Python `name.rfind('.')` (with
`none` standing for Python's -1).  A dot in the tail wins over the head. -/
def py_rfind_dot : PyStr → Option Nat
  | [] => none
  | c :: rest =>
    match py_rfind_dot rest with
    | some j => some (j + 1)
    | none => if c = '.' then some 0 else none

/-- Python `pathlib.PurePath.suffix` of a final name component: the part
from the last dot, provided that dot is neither the first nor the last
character (so ".flac" and "x." have empty suffix). -/
def py_suffix (name : PyStr) : PyStr :=
  match py_rfind_dot name with
  | some i => if 0 < i ∧ i + 1 < name.length then name.drop i else []
  | none => []

/-- The literal ".flac". -/
def flacExt : PyStr := ['.', 'f', 'l', 'a', 'c']

/-- Lines 92-99 (`validate_bitrate`): the bitrate string is accepted iff
`self.bitrate.endswith("k") and self.bitrate[:-1].isdigit()`. -/
def validate_bitrate_accepts (b : PyStr) : Bool :=
  py_endswith b ['k'] && py_str_isdigit b.dropLast

/-- The spec's pattern `^[0-9]+k$`: at least one ASCII digit followed by a
final 'k'.  Stated via dropLast: the string ends with 'k' and the rest is a
nonempty run of ASCII digits. -/
def matches_bitrate_pattern (s : PyStr) : Bool :=
  py_endswith s ['k'] && !s.dropLast.isEmpty && s.dropLast.all Char.isDigit

/-! ## File classifier (lines 110-117) -/

/-- Kind of a directory entry as seen by the traversal.  `is_file`
follows symlinks, so a symlink's target kind matters. -/
inductive EntryKind
  | regular
  | directory
  | symlinkToRegular
  | symlinkToDirectory
  | brokenSymlink
  deriving DecidableEq, Repr

/-- One entry below the source root; only the final name component and the
kind are relevant to the classifier. -/
structure FSEntry where
  name : PyStr
  kind : EntryKind
  deriving DecidableEq, Repr

/-- Python `Path.is_file()`: true for regular files and for symlinks whose
target is a regular file. -/
def is_file (e : FSEntry) : Bool :=
  e.kind == .regular || e.kind == .symlinkToRegular

/-- Line 117's test `f.suffix.lower() == ".flac"`: the case-insensitive
"has the transcodable extension" predicate. -/
def transcodable_ext_ci (name : PyStr) : Bool :=
  decide (py_lower (py_suffix name) = flacExt)

/-- Lines 110-112 (`find_flac_files`): `source_dir.rglob("*.flac")`.
`rglob` matches the final name component against the glob `*.flac`
case-sensitively (POSIX) and yields every matching entry, whatever its
kind - regular files, directories and symlinks alike. -/
def find_flac_files (tree : List FSEntry) : List FSEntry :=
  tree.filter fun e => py_endswith e.name flacExt

/-- Lines 114-117 (`find_non_flac_files`): all entries of `rglob("*")`
with `f.is_file()` true and `f.suffix.lower() != ".flac"`. -/
def find_non_flac_files (tree : List FSEntry) : List FSEntry :=
  tree.filter fun e => is_file e && !transcodable_ext_ci e.name

/-! ## Outcomes and tallies (lines 48-49) -/

/-- The closed outcome type for transcode jobs: the four keys of
`self.results` (line 48). -/
inductive Outcome
  | success
  | failed
  | skipped
  | dryRun
  deriving DecidableEq, Repr

/-- The closed outcome type for copy jobs: the keys of
`self.non_flac_results` (line 49, "failed" added via `.get` at 253). -/
inductive CopyOutcome
  | copied
  | skipped
  | dryRun
  | failed
  deriving DecidableEq, Repr

/-- The Python exception relevant here: `ValueError` raised by
`Path.relative_to` when the path is not under the source root. -/
inductive PyError
  | valueError
  deriving DecidableEq, Repr

/-- `sum(self.results.values())`: total of the four outcome counters. -/
def tallySum (outs : List Outcome) : Nat :=
  outs.count .success + outs.count .failed + outs.count .skipped + outs.count .dryRun

lemma tallySum_eq_length (outs : List Outcome) : tallySum outs = outs.length := by
  induction outs with
  | nil => rfl
  | cons o rest ih =>
    cases o <;> simp [tallySum, List.count_cons] at ih ⊢ <;> omega

/-! ## Tool configuration and run-level effects (lines 26-56, 58-90) -/

/-- The constructor arguments that matter to the claims.  Paths are lists
of components; `timestamp` is the `int(time.time())` of line 60. -/
structure RunConfig where
  sourceDir : List String
  destDir : List String
  dryRun : Bool
  timestamp : Nat
  deriving DecidableEq, Repr

/-- Filesystem side effects the tool performs. `mkdirParents` is
`mkdir(parents=True, exist_ok=True)`; `createFile` is opening a
`logging.FileHandler` target; `writeEncoderOutput` is the external
encoder writing its output file; `copyFile` is `shutil.copy2`. -/
inductive FSOp
  | mkdirParents (path : List String)
  | createFile (path : List String)
  | writeEncoderOutput (path : List String)
  | copyFile (src dst : List String)
  deriving DecidableEq, Repr

/-- Line 61: `dest_dir / f"transcode_flac_to_opus_{timestamp}.log"`. -/
def log_file_path (cfg : RunConfig) : List String :=
  cfg.destDir ++ ["transcode_flac_to_opus_" ++ toString cfg.timestamp ++ ".log"]

/-- Lines 62-64: the `.errors.log` sibling of the main log. -/
def error_log_file_path (cfg : RunConfig) : List String :=
  cfg.destDir ++ ["transcode_flac_to_opus_" ++ toString cfg.timestamp ++ ".errors.log"]

/-- Effects of `__init__` and `setup_logging`, performed unconditionally
(dry-run or not): line 38 creates the destination directory, lines 73 and
78 open `FileHandler`s on the two log files, creating them under
`dest_dir`. -/
def tool_init_effects (cfg : RunConfig) : List FSOp :=
  [.mkdirParents cfg.destDir,
   .createFile (log_file_path cfg),
   .createFile (error_log_file_path cfg)]

/-! ## Per-job model (lines 119-220) -/

/-- Behaviour of the external `opusenc` invocation for one job:
`startFailure` is `subprocess.Popen` raising (line 160), `waitFailure` is
`p.wait()` raising (line 171), `exited code` is a normal wait with the
given return code. -/
inductive EncoderResult
  | startFailure
  | waitFailure
  | exited (code : Int)
  deriving DecidableEq, Repr

/-- One transcode job: the source file's path relative to the source root
plus the parts of the world state `transcode_file` consults.
`underSourceRoot` records whether `flac_path.relative_to(source_dir)`
succeeds (line 124); `destExists`/`srcMtime`/`destMtime` feed the
freshness check of lines 130-133; `encoder` fixes the external process
behaviour for this job. -/
structure JobSpec where
  relPath : List String
  underSourceRoot : Bool
  destExists : Bool
  srcMtime : Int
  destMtime : Int
  encoder : EncoderResult
  deriving DecidableEq, Repr

/-- One pass-through copy job, mirroring `copy_non_flac_file`
(lines 196-220).  `copyRaises` models `shutil.copy2` raising (line 215). -/
structure CopySpec where
  relPath : List String
  underSourceRoot : Bool
  destExists : Bool
  srcMtime : Int
  destMtime : Int
  copyRaises : Bool
  deriving DecidableEq, Repr

/-- Lines 130-133 and 203: the skip-if-up-to-date test
`dest.exists() and src.stat().st_mtime <= dest.stat().st_mtime`. -/
def freshness_check (destExists : Bool) (srcMtime destMtime : Int) : Bool :=
  destExists && decide (srcMtime ≤ destMtime)

/-- Python `PurePath.with_suffix`: drop the existing suffix of the final
name component and append the new one. -/
def py_with_suffix (name newSuffix : String) : String :=
  let cs := name.toList
  String.mk (cs.take (cs.length - (py_suffix cs).length) ++ newSuffix.toList)

/-- Lines 124-126: `dest_dir / rel_path.with_suffix(".opus")`. -/
def opus_dest_path (cfg : RunConfig) (relPath : List String) : List String :=
  cfg.destDir ++ relPath.dropLast ++ [py_with_suffix (relPath.getLastD "") ".opus"]

instance {ε α : Type} [DecidableEq ε] [DecidableEq α] : DecidableEq (Except ε α)
  | .error a, .error b =>
    if h : a = b then .isTrue (by rw [h]) else .isFalse (by intro hc; cases hc; exact h rfl)
  | .error _, .ok _ => .isFalse (by intro h; cases h)
  | .ok _, .error _ => .isFalse (by intro h; cases h)
  | .ok a, .ok b =>
    if h : a = b then .isTrue (by rw [h]) else .isFalse (by intro hc; cases hc; exact h rfl)

/-- Result view of one `transcode_file` call: the returned outcome string
(or the uncaught exception), whether `subprocess.Popen` was reached, and
the filesystem effects performed. -/
structure TranscodeStep where
  result : Except PyError Outcome
  invokedEncoder : Bool
  effects : List FSOp
  deriving DecidableEq, Repr

/-- Lines 119-194 (`transcode_file`), as a function of the tool state and
one job.  Control flow in source order: the `self.interrupted` early
return (121), `relative_to` which raises `ValueError` off-tree (124),
`mkdir` of the destination parent (127), the freshness skip (130-137),
the dry-run return (139-143), then the encoder invocation where a start
failure, a wait failure and a non-zero exit all return "failed"
(154-176) and a zero exit returns "success" (194). -/
def transcode_file (cfg : RunConfig) (interrupted : Bool) (j : JobSpec) : TranscodeStep :=
  if interrupted then ⟨.ok .skipped, false, []⟩
  else if !j.underSourceRoot then ⟨.error .valueError, false, []⟩
  else
    let dest := opus_dest_path cfg j.relPath
    let mkParent := FSOp.mkdirParents dest.dropLast
    if freshness_check j.destExists j.srcMtime j.destMtime then
      ⟨.ok .skipped, false, [mkParent]⟩
    else if cfg.dryRun then
      ⟨.ok .dryRun, false, [mkParent]⟩
    else
      match j.encoder with
      | .startFailure => ⟨.ok .failed, true, [mkParent]⟩
      | .waitFailure => ⟨.ok .failed, true, [mkParent, .writeEncoderOutput dest]⟩
      | .exited c =>
        if c = 0 then ⟨.ok .success, true, [mkParent, .writeEncoderOutput dest]⟩
        else ⟨.ok .failed, true, [mkParent, .writeEncoderOutput dest]⟩

/-- Result view of one `copy_non_flac_file` call. -/
structure CopyStep where
  result : Except PyError CopyOutcome
  effects : List FSOp
  deriving DecidableEq, Repr

/-- Lines 196-220 (`copy_non_flac_file`): `relative_to` raises off-tree
(198, uncaught), `mkdir` of the parent (200), freshness skip (203-207),
dry-run return (209-211), then `shutil.copy2` whose failure returns
"failed" (213-217) and success returns "copied" (220). -/
def copy_non_flac_file (cfg : RunConfig) (c : CopySpec) : CopyStep :=
  if !c.underSourceRoot then ⟨.error .valueError, []⟩
  else
    let dest := cfg.destDir ++ c.relPath
    let mkParent := FSOp.mkdirParents dest.dropLast
    if freshness_check c.destExists c.srcMtime c.destMtime then
      ⟨.ok .skipped, [mkParent]⟩
    else if cfg.dryRun then
      ⟨.ok .dryRun, [mkParent]⟩
    else if c.copyRaises then
      ⟨.ok .failed, [mkParent]⟩
    else
      ⟨.ok .copied, [mkParent, .copyFile (cfg.sourceDir ++ c.relPath) dest]⟩

/-! ## Schedulers (lines 355-394) -/

/-- Lines 355-361, the single-threaded loop: each job's outcome is
tallied in order; an exception other than `KeyboardInterrupt` escaping
`transcode_file` is caught nowhere and aborts the run (only
`KeyboardInterrupt` is caught, line 362). -/
def runSingleOutcomes (cfg : RunConfig) : List JobSpec → Except PyError (List Outcome)
  | [] => .ok []
  | j :: rest =>
    match (transcode_file cfg false j).result with
    | .error e => .error e
    | .ok o =>
      match runSingleOutcomes cfg rest with
      | .error e => .error e
      | .ok os => .ok (o :: os)

/-- Lines 370-386, the thread-pool run: every submitted future is
consumed exactly once by the `as_completed` loop, in some completion
order; a future whose call raised is tallied "failed" (lines 383-385).
The list argument is the completion order of the futures. -/
def runMultiOutcomes (cfg : RunConfig) (completionOrder : List JobSpec) : List Outcome :=
  completionOrder.map fun j =>
    match (transcode_file cfg false j).result with
    | .error _ => .failed
    | .ok o => o

/-- Lines 362-369: a `KeyboardInterrupt` that arrives after `k` jobs have
been tallied aborts the single-threaded loop; only those `k` outcomes are
in `self.results` and the process exits with status 1 (line 369).  The
remaining jobs are never tallied. -/
def runSingleCancelled (cfg : RunConfig) (jobs : List JobSpec) (k : Nat) :
    Except PyError (List Outcome) × Nat :=
  (runSingleOutcomes cfg (jobs.take k), 1)

/-! ## Run phases (lines 300-335) -/

/-- Top-level phases of `run()` in source order. -/
inductive RunPhase
  | configAbort (exitCode : Nat)
  | traversal
  | transcodePhase
  | copyPhase
  | summary
  deriving DecidableEq, Repr

/-- Lines 300-337: `validate_bitrate` (302) exits 1 on a bad bitrate,
`check_opusenc` (303) exits 1 when the binary is missing, the explicit
`--jobs` value is rejected when < 1 (312-315); only then does
`find_flac_files` traverse the source tree (328). -/
def run_phases (bitrate : PyStr) (opusencFound : Bool) (jobsArg : Option Int) :
    List RunPhase :=
  if !validate_bitrate_accepts bitrate then [.configAbort 1]
  else if !opusencFound then [.configAbort 1]
  else
    match jobsArg with
    | some n =>
      if n < 1 then [.configAbort 1]
      else [.traversal, .transcodePhase, .copyPhase, .summary]
    | none => [.traversal, .transcodePhase, .copyPhase, .summary]

/-- All filesystem effects of one uncancelled run: `__init__`/logging
effects, then each transcode job's effects (lines 339-394), then each
copy job's effects (line 397). -/
def run_effects (cfg : RunConfig) (jobs : List JobSpec) (copies : List CopySpec) :
    List FSOp :=
  tool_init_effects cfg
    ++ jobs.flatMap (fun j => (transcode_file cfg false j).effects)
    ++ copies.flatMap (fun c => (copy_non_flac_file cfg c).effects)

/-- True when `p` lies strictly below `root`. -/
def path_is_under (p root : List String) : Bool :=
  root.isPrefixOf p && decide (p ≠ root)

/-- Whether an effect creates or modifies a file (not a bare directory)
under `root`. -/
def op_touches_file_under (root : List String) : FSOp → Bool
  | .mkdirParents _ => false
  | .createFile p => path_is_under p root
  | .writeEncoderOutput p => path_is_under p root
  | .copyFile _ dst => path_is_under dst root

/-! ## Subprocess registration trace (lines 154-176)

One worker's interaction with `subprocess_lock` and `active_subprocesses`
during `transcode_file`, at the granularity of the individual statements.
"Moment i" means the state after the first `i` events have executed. -/

/-- Atomic events of the lines 154-176 region: lock acquisition/release
(the `with self.subprocess_lock:` blocks at 154 and 175), `Popen`
returning (156) or raising (160), `active_subprocesses.append` (159),
entering and returning from `p.wait()` (165), and
`active_subprocesses.remove` (176). -/
inductive PEvent
  | lockAcquire
  | lockRelease
  | popenStart
  | popenRaise
  | listAppend
  | waitBegin
  | waitReturn
  | listRemove
  deriving DecidableEq, Repr

/-- The event sequence of lines 154-176.  When `Popen` succeeds: the
first `with` block holds the lock across both the `Popen` call and the
`append`; the blocking `wait` runs outside any lock; the `finally` block
reacquires the lock just for the `remove`.  When `Popen` raises, the
handler returns "failed" from inside the `with` block. -/
def transcode_subprocess_trace (startOk : Bool) : List PEvent :=
  if startOk then
    [.lockAcquire, .popenStart, .listAppend, .lockRelease,
     .waitBegin, .waitReturn, .lockAcquire, .listRemove, .lockRelease]
  else
    [.lockAcquire, .popenRaise, .lockRelease]

/-- Occurrences of event `e` among the first `i` events. -/
def countIn (tr : List PEvent) (i : Nat) (e : PEvent) : Nat := (tr.take i).count e

/-- The worker holds `subprocess_lock` at moment `i`. -/
def lockHeld (tr : List PEvent) (i : Nat) : Bool :=
  decide (countIn tr i .lockRelease < countIn tr i .lockAcquire)

/-- The handle is a member of `active_subprocesses` at moment `i`. -/
def inSet (tr : List PEvent) (i : Nat) : Bool :=
  decide (countIn tr i .listRemove < countIn tr i .listAppend)

/-- The underlying process has been started by moment `i`. -/
def procStarted (tr : List PEvent) (i : Nat) : Bool :=
  decide (0 < countIn tr i .popenStart)

/-- The process's termination has been confirmed (its `wait` has
returned) by moment `i`. -/
def terminationConfirmed (tr : List PEvent) (i : Nat) : Bool :=
  decide (0 < countIn tr i .waitReturn)

/-- The worker is blocked inside `p.wait()` at moment `i`. -/
def inWait (tr : List PEvent) (i : Nat) : Bool :=
  decide (countIn tr i .waitReturn < countIn tr i .waitBegin)

/-- The claim's membership invariant: at every moment, the handle is in
the set iff the process has been started and its termination is not yet
confirmed. -/
def membership_invariant (tr : List PEvent) : Prop :=
  ∀ i ≤ tr.length, inSet tr i = (procStarted tr i && !terminationConfirmed tr i)

/-- The claim's lock discipline: whenever the lock is held, the event
being executed is an add or a remove on the set (or the release itself). -/
def lock_only_for_set_ops (tr : List PEvent) : Prop :=
  ∀ i, i < tr.length → lockHeld tr i = true →
    tr.get? i = some PEvent.listAppend ∨ tr.get? i = some PEvent.listRemove ∨
      tr.get? i = some PEvent.lockRelease

/-- The lock is never held while the worker blocks in `p.wait()`. -/
def lock_free_during_wait (tr : List PEvent) : Prop :=
  ∀ i ≤ tr.length, inWait tr i = true → lockHeld tr i = false

/-! ## Run-level event trace (lines 342-397)

The uncancelled run: the transcode phase tallies one outcome per FLAC
job (the `as_completed` loop consumes every future before the `with`
block exits), and only afterwards (line 397) does `copy_non_flac_files`
run its strictly sequential copy loop (lines 246-254). -/

/-- Observable events of a run: an outcome being tallied for FLAC job
`idx`, and the start/finish of the copy of pass-through file `idx`. -/
inductive RunEvent
  | outcomeTallied (idx : Nat) (o : Outcome)
  | copyStarted (idx : Nat)
  | copyFinished (idx : Nat) (r : CopyOutcome)
  deriving DecidableEq, Repr

/-- Tally events of the transcode phase, in tally order. -/
def tallyEvents (i : Nat) : List Outcome → List RunEvent
  | [] => []
  | o :: rest => .outcomeTallied i o :: tallyEvents (i + 1) rest

/-- Events of the sequential copy loop (lines 246-254): each file's copy
starts only after the previous one finished; an uncaught `ValueError`
from `relative_to` (line 198) aborts the loop mid-file. -/
def copyPhaseEvents (cfg : RunConfig) (i : Nat) : List CopySpec → List RunEvent
  | [] => []
  | c :: rest =>
    match (copy_non_flac_file cfg c).result with
    | .error _ => [.copyStarted i]
    | .ok r => .copyStarted i :: .copyFinished i r :: copyPhaseEvents cfg (i + 1) rest

/-- The event trace of an uncancelled run: all transcode tallies (in the
pool's completion order), then the sequential copy phase. -/
def run_trace (cfg : RunConfig) (completionOrder : List JobSpec) (copies : List CopySpec) :
    List RunEvent :=
  tallyEvents 0 (runMultiOutcomes cfg completionOrder) ++ copyPhaseEvents cfg 0 copies

/-- Every copy starts after every transcode outcome has been tallied. -/
def copiesAfterTallies (tr : List RunEvent) : Prop :=
  ∀ m n i o a, tr.get? m = some (.outcomeTallied i o) → tr.get? n = some (.copyStarted a) →
    m < n

/-- Copies never overlap: between the starts of two copies, the first
copy finished. -/
def copiesSequential (tr : List RunEvent) : Prop :=
  ∀ m n a b, m < n → tr.get? m = some (.copyStarted a) → tr.get? n = some (.copyStarted b) →
    ∃ p r, m < p ∧ p < n ∧ tr.get? p = some (.copyFinished a r)

/-! ## Concrete fixtures used by counterexamples and witnesses -/

/-- A non-dry-run configuration. -/
def cfg0 : RunConfig := ⟨["src"], ["dest"], false, 0⟩

/-- A dry-run configuration. -/
def cfg0dry : RunConfig := ⟨["src"], ["dest"], true, 0⟩

/-- A well-formed job whose encoder exits 0. -/
def jobOk : JobSpec := ⟨["a.flac"], true, false, 0, 0, .exited 0⟩

/-- A job whose source path is not under the source root. -/
def jobBad : JobSpec := ⟨["b.flac"], false, false, 0, 0, .exited 0⟩

/-- A job whose destination is already up to date. -/
def jobFresh : JobSpec := ⟨["c.flac"], true, true, 0, 5, .exited 0⟩

/-- A job whose encoder fails to start. -/
def jobStartFail : JobSpec := ⟨["d.flac"], true, false, 0, 0, .startFailure⟩

/-- A well-formed copy job. -/
def copyOk : CopySpec := ⟨["notes.txt"], true, false, 0, 0, false⟩

/-- A second well-formed copy job. -/
def copyOk2 : CopySpec := ⟨["cover.jpg"], true, false, 0, 0, false⟩

/-- A copy job whose source path is not under the source root. -/
def copyBad : CopySpec := ⟨["x.txt"], false, false, 0, 0, false⟩

/-! ## Helper lemmas -/

/-- The outcome `transcode_file` returns for an on-tree job when the tool
is not interrupted, in closed form. -/
def job_outcome (cfg : RunConfig) (j : JobSpec) : Outcome :=
  if freshness_check j.destExists j.srcMtime j.destMtime then .skipped
  else if cfg.dryRun then .dryRun
  else
    match j.encoder with
    | .startFailure => .failed
    | .waitFailure => .failed
    | .exited c => if c = 0 then .success else .failed

lemma transcode_file_result_ok (cfg : RunConfig) (j : JobSpec)
    (h : j.underSourceRoot = true) :
    (transcode_file cfg false j).result = Except.ok (job_outcome cfg j) := by
  simp only [transcode_file, job_outcome, h, Bool.not_true, Bool.false_eq_true,
    if_false]
  split
  · rfl
  · split
    · rfl
    · cases j.encoder with
      | startFailure => rfl
      | waitFailure => rfl
      | exited c =>
        by_cases hc : c = 0 <;> simp [hc]

lemma transcode_file_offtree (cfg : RunConfig) (j : JobSpec)
    (h : j.underSourceRoot = false) :
    transcode_file cfg false j = ⟨.error .valueError, false, []⟩ := by
  simp [transcode_file, h]

lemma transcode_file_fresh (cfg : RunConfig) (j : JobSpec)
    (h1 : j.underSourceRoot = true)
    (h2 : freshness_check j.destExists j.srcMtime j.destMtime = true) :
    transcode_file cfg false j =
      ⟨.ok .skipped, false, [.mkdirParents (opus_dest_path cfg j.relPath).dropLast]⟩ := by
  simp [transcode_file, h1, h2]

lemma job_outcome_fresh (cfg : RunConfig) (j : JobSpec)
    (h : freshness_check j.destExists j.srcMtime j.destMtime = true) :
    job_outcome cfg j = .skipped := by
  simp [job_outcome, h]

lemma runSingleOutcomes_eq_map (cfg : RunConfig) (jobs : List JobSpec)
    (hwf : ∀ j ∈ jobs, j.underSourceRoot = true) :
    runSingleOutcomes cfg jobs = .ok (jobs.map (job_outcome cfg)) := by
  induction jobs with
  | nil => rfl
  | cons j rest ih =>
    have hj := hwf j (List.mem_cons_self j rest)
    have hr := ih fun x hx => hwf x (List.mem_cons_of_mem _ hx)
    simp [runSingleOutcomes, transcode_file_result_ok cfg j hj, hr]

lemma runMultiOutcomes_eq_map (cfg : RunConfig) (order : List JobSpec)
    (hwf : ∀ j ∈ order, j.underSourceRoot = true) :
    runMultiOutcomes cfg order = order.map (job_outcome cfg) := by
  unfold runMultiOutcomes
  apply List.map_congr_left
  intro j hj
  rw [transcode_file_result_ok cfg j (hwf j hj)]

lemma length_runMultiOutcomes (cfg : RunConfig) (order : List JobSpec) :
    (runMultiOutcomes cfg order).length = order.length := by
  simp [runMultiOutcomes]

lemma py_rfind_dot_append_flacExt (ys : PyStr) :
    py_rfind_dot (ys ++ flacExt) = some ys.length := by
  induction ys with
  | nil => rfl
  | cons y ys ih => simp [py_rfind_dot, ih]

lemma py_suffix_of_endswith_flac (name : PyStr)
    (hend : py_endswith name flacExt = true) (hne : name ≠ flacExt) :
    py_suffix name = flacExt := by
  have hsuf : flacExt <:+ name := List.isSuffixOf_iff_suffix.mp hend
  obtain ⟨ys, rfl⟩ := hsuf
  have hys : ys ≠ [] := by
    intro h0
    exact hne (by simp [h0])
  have hpos : 0 < ys.length := List.length_pos.mpr hys
  simp only [py_suffix, py_rfind_dot_append_flacExt]
  rw [if_pos ⟨hpos, by
    simp only [List.length_append, flacExt, List.length_cons, List.length_nil]
    omega⟩]
  exact List.drop_left ys flacExt

lemma mem_tallyEvents (i : Nat) (outs : List Outcome) (e : RunEvent)
    (h : e ∈ tallyEvents i outs) : ∃ k o, e = RunEvent.outcomeTallied k o := by
  induction outs generalizing i with
  | nil => simp [tallyEvents] at h
  | cons o rest ih =>
    simp only [tallyEvents, List.mem_cons] at h
    rcases h with rfl | h
    · exact ⟨i, o, rfl⟩
    · exact ih _ h

lemma mem_copyPhaseEvents (cfg : RunConfig) (i : Nat) (cs : List CopySpec) (e : RunEvent)
    (h : e ∈ copyPhaseEvents cfg i cs) :
    (∃ a, e = RunEvent.copyStarted a) ∨ ∃ a r, e = RunEvent.copyFinished a r := by
  induction cs generalizing i with
  | nil => simp [copyPhaseEvents] at h
  | cons c rest ih =>
    rw [copyPhaseEvents] at h
    cases hr : (copy_non_flac_file cfg c).result with
    | error e' =>
      rw [hr] at h
      simp at h
      exact Or.inl ⟨i, h⟩
    | ok r =>
      rw [hr] at h
      simp only [List.mem_cons] at h
      rcases h with rfl | rfl | h
      · exact Or.inl ⟨i, rfl⟩
      · exact Or.inr ⟨i, r, rfl⟩
      · exact ih _ h

lemma copiesSequential_copyPhaseEvents (cfg : RunConfig) (cs : List CopySpec) :
    ∀ i, copiesSequential (copyPhaseEvents cfg i cs) := by
  induction cs with
  | nil =>
    intro i
    unfold copiesSequential
    intro m n a b hmn hm hn
    simp [copyPhaseEvents] at hm
  | cons c rest ih =>
    intro i
    cases hr : (copy_non_flac_file cfg c).result with
    | error e' =>
      have htr : copyPhaseEvents cfg i (c :: rest) = [RunEvent.copyStarted i] := by
        rw [copyPhaseEvents, hr]
      unfold copiesSequential
      rw [htr]
      intro m n a b hmn hm hn
      rcases n with _ | n
      · omega
      · simp at hn
    | ok r =>
      have htr : copyPhaseEvents cfg i (c :: rest) =
          RunEvent.copyStarted i :: RunEvent.copyFinished i r ::
            copyPhaseEvents cfg (i + 1) rest := by
        rw [copyPhaseEvents, hr]
      unfold copiesSequential
      rw [htr]
      intro m n a b hmn hm hn
      rcases m with _ | _ | m
      · simp only [List.get?_cons_zero, Option.some.injEq] at hm
        have ha : i = a := by cases hm; rfl
        subst ha
        refine ⟨1, r, by omega, ?_, by simp⟩
        rcases n with _ | _ | n
        · omega
        · simp at hn
        · omega
      · simp at hm
      · rcases n with _ | _ | n
        · omega
        · omega
        · have hm' : (copyPhaseEvents cfg (i + 1) rest).get? m =
              some (RunEvent.copyStarted a) := by simpa using hm
          have hn' : (copyPhaseEvents cfg (i + 1) rest).get? n =
              some (RunEvent.copyStarted b) := by simpa using hn
          obtain ⟨p, r', hp1, hp2, hp3⟩ := ih (i + 1) m n a b (by omega) hm' hn'
          refine ⟨p + 2, r', by omega, by omega, ?_⟩
          simpa using hp3

lemma copiesSequential_append (l₁ l₂ : List RunEvent)
    (h₁ : ∀ e ∈ l₁, ∀ a, e ≠ RunEvent.copyStarted a)
    (h₂ : copiesSequential l₂) : copiesSequential (l₁ ++ l₂) := by
  unfold copiesSequential at h₂ ⊢
  intro m n a b hmn hm hn
  have hmlen : l₁.length ≤ m := by
    by_contra hlt
    push_neg at hlt
    rw [List.get?_append hlt] at hm
    exact absurd rfl (h₁ _ (List.get?_mem hm) a)
  have hnlen : l₁.length ≤ n := by omega
  rw [List.get?_append_right hmlen] at hm
  rw [List.get?_append_right hnlen] at hn
  obtain ⟨p, r, hp1, hp2, hp3⟩ := h₂ (m - l₁.length) (n - l₁.length) a b (by omega) hm hn
  refine ⟨l₁.length + p, r, by omega, by omega, ?_⟩
  rw [List.get?_append_right (by omega)]
  simpa using hp3

lemma copiesAfterTallies_run_trace (cfg : RunConfig) (order : List JobSpec)
    (copies : List CopySpec) : copiesAfterTallies (run_trace cfg order copies) := by
  unfold copiesAfterTallies run_trace
  intro m n i o a hm hn
  have hmT : m < (tallyEvents 0 (runMultiOutcomes cfg order)).length := by
    by_contra hge
    push_neg at hge
    rw [List.get?_append_right hge] at hm
    rcases mem_copyPhaseEvents cfg 0 copies _ (List.get?_mem hm) with ⟨a', ha⟩ | ⟨a', r', ha⟩ <;>
      simp at ha
  have hnT : (tallyEvents 0 (runMultiOutcomes cfg order)).length ≤ n := by
    by_contra hlt
    push_neg at hlt
    rw [List.get?_append hlt] at hn
    obtain ⟨k, o', hk⟩ := mem_tallyEvents 0 _ _ (List.get?_mem hn)
    simp at hk
  omega

/-! ## Claim C1 -/

/-- Claim C1 as stated: in every run - even one cancelled mid-way - every
job receives a tallied outcome, so the tally total equals the number of
jobs. -/
def tally_complete_even_cancelled : Prop :=
  ∀ (cfg : RunConfig) (jobs : List JobSpec) (k : Nat), k ≤ jobs.length →
    ∃ os, (runSingleCancelled cfg jobs k).1 = Except.ok os ∧ tallySum os = jobs.length

/-- Claim C1 is false on the code: a single-threaded run over two jobs
cancelled after the first tally records one outcome, not two - lines
362-369 break out of the loop and call `sys.exit(1)` without tallying
pending jobs. -/
theorem C1_counterexample : ¬ tally_complete_even_cancelled := by
  intro h
  obtain ⟨os, hos, hsum⟩ := h cfg0 [jobOk, jobOk] 1 (by decide)
  have hval : (runSingleCancelled cfg0 [jobOk, jobOk] 1).1 =
      Except.ok [Outcome.success] := by decide
  rw [hval] at hos
  cases hos
  exact absurd hsum (by decide)

/-- Claim C1, amended: in every uncancelled run (single- or
multi-threaded, any completion order) each job is tallied exactly once
and the tally total equals the number of jobs; a run cancelled after `k`
tallied jobs exits with status 1 and its tally covers exactly those `k`
jobs - in-flight and not-yet-started jobs receive no outcome. -/
theorem C1_amended_tally (cfg : RunConfig) (jobs perm : List JobSpec) (k : Nat)
    (hwf : ∀ j ∈ jobs, j.underSourceRoot = true) (hperm : perm.Perm jobs) :
    (∃ os, runSingleOutcomes cfg jobs = Except.ok os ∧ tallySum os = jobs.length) ∧
    tallySum (runMultiOutcomes cfg perm) = jobs.length ∧
    (runSingleCancelled cfg jobs k).2 = 1 ∧
    (∃ os, (runSingleCancelled cfg jobs k).1 = Except.ok os ∧
      tallySum os = min k jobs.length) := by
  refine ⟨⟨jobs.map (job_outcome cfg), runSingleOutcomes_eq_map cfg jobs hwf, ?_⟩,
    ?_, rfl, ?_⟩
  · rw [tallySum_eq_length, List.length_map]
  · rw [tallySum_eq_length, length_runMultiOutcomes, hperm.length_eq]
  · refine ⟨(jobs.take k).map (job_outcome cfg),
      runSingleOutcomes_eq_map cfg (jobs.take k)
        (fun j hj => hwf j (List.take_subset k jobs hj)), ?_⟩
    rw [tallySum_eq_length, List.length_map, List.length_take]

/-- Witness for the amended C1 at a concrete two-job run. -/
theorem C1_amended_tally_witness :
    (∃ os, runSingleOutcomes cfg0 [jobOk, jobStartFail] = Except.ok os ∧
      tallySum os = 2) ∧
    tallySum (runMultiOutcomes cfg0 [jobStartFail, jobOk]) = 2 ∧
    (runSingleCancelled cfg0 [jobOk, jobStartFail] 1).2 = 1 ∧
    (∃ os, (runSingleCancelled cfg0 [jobOk, jobStartFail] 1).1 = Except.ok os ∧
      tallySum os = min 1 2) := by
  have h := C1_amended_tally cfg0 [jobOk, jobStartFail] [jobStartFail, jobOk] 1
    (by decide) (by decide)
  simpa using h

/-! ## Claim C2 -/

/-- Claim C2 is false on the code in two ways, on the successful-start
trace: at the moment after `Popen` returns and before `append` runs, the
process is started yet not in the set (refuting the stated membership
iff); and the lock is held while the `Popen` start executes (line 154's
`with` block wraps the start, not just the `append`), refuting "acquired
only for the add and remove operations". -/
theorem C2_counterexample :
    ¬ ∀ startOk : Bool,
        membership_invariant (transcode_subprocess_trace startOk) ∧
        lock_only_for_set_ops (transcode_subprocess_trace startOk) ∧
        lock_free_during_wait (transcode_subprocess_trace startOk) := by
  unfold membership_invariant lock_only_for_set_ops lock_free_during_wait
  decide

/-- Claim C2, amended: a handle is in the set only if its process has
been started; the handle stays in the set throughout the blocking wait;
the lock is held only while starting the process (success or raise),
appending, removing, or releasing - in particular it is additionally
held across the `Popen` start - and it is never held while blocking in
`p.wait()`; after the region completes the set is empty again. -/
theorem C2_amended_lock_discipline (startOk : Bool) :
    (∀ i ≤ (transcode_subprocess_trace startOk).length,
      (inSet (transcode_subprocess_trace startOk) i = true →
        procStarted (transcode_subprocess_trace startOk) i = true) ∧
      (inWait (transcode_subprocess_trace startOk) i = true →
        inSet (transcode_subprocess_trace startOk) i = true ∧
        lockHeld (transcode_subprocess_trace startOk) i = false)) ∧
    (∀ i, i < (transcode_subprocess_trace startOk).length →
      lockHeld (transcode_subprocess_trace startOk) i = true →
      (transcode_subprocess_trace startOk).get? i = some PEvent.popenStart ∨
      (transcode_subprocess_trace startOk).get? i = some PEvent.popenRaise ∨
      (transcode_subprocess_trace startOk).get? i = some PEvent.listAppend ∨
      (transcode_subprocess_trace startOk).get? i = some PEvent.listRemove ∨
      (transcode_subprocess_trace startOk).get? i = some PEvent.lockRelease) ∧
    inSet (transcode_subprocess_trace startOk)
      (transcode_subprocess_trace startOk).length = false := by
  cases startOk <;> exact ⟨by decide, by decide, by decide⟩

/-- Witness for the amended C2: at moment 5 of the successful trace the
worker is blocked in `wait`, the handle is in the set and the lock is
free. -/
theorem C2_amended_lock_discipline_witness :
    inSet (transcode_subprocess_trace true) 5 = true ∧
    lockHeld (transcode_subprocess_trace true) 5 = false := by
  have h := (C2_amended_lock_discipline true).1 5 (by decide)
  exact h.2 (by decide)

/-! ## Claim C3 -/

/-- Claim C3: with the same input (the same job descriptions, no
cancellation), the single-threaded run and a multi-threaded run with any
completion order produce the same multiset of outcomes - each per-job
outcome depends only on that job, and tallying is commutative. -/
theorem C3_tally_worker_count_independent (cfg : RunConfig) (jobs perm : List JobSpec)
    (hwf : ∀ j ∈ jobs, j.underSourceRoot = true) (hperm : perm.Perm jobs) :
    ∃ os, runSingleOutcomes cfg jobs = Except.ok os ∧
      ∀ o : Outcome, (runMultiOutcomes cfg perm).count o = os.count o := by
  refine ⟨jobs.map (job_outcome cfg), runSingleOutcomes_eq_map cfg jobs hwf, ?_⟩
  intro o
  rw [runMultiOutcomes_eq_map cfg perm (fun j hj => hwf j (hperm.subset hj))]
  exact (hperm.map (job_outcome cfg)).count_eq o

/-- Witness for C3 at a two-job run with a swapped completion order. -/
theorem C3_witness :
    ∃ os, runSingleOutcomes cfg0 [jobOk, jobStartFail] = Except.ok os ∧
      ∀ o : Outcome, (runMultiOutcomes cfg0 [jobStartFail, jobOk]).count o = os.count o :=
  C3_tally_worker_count_independent cfg0 [jobOk, jobStartFail] [jobStartFail, jobOk]
    (by decide) (by decide)

/-! ## Claim C6 -/

/-- Claim C6: on any on-tree job `transcode_file` returns a value of the
closed Outcome type (never an exception); a `Popen` start failure yields
"failed", and a started process exiting non-zero yields "failed". -/
theorem C6_encoder_failure_returns_failed (cfg : RunConfig) (j : JobSpec)
    (hroot : j.underSourceRoot = true) :
    (∃ o, (transcode_file cfg false j).result = Except.ok o) ∧
    (freshness_check j.destExists j.srcMtime j.destMtime = false → cfg.dryRun = false →
      (j.encoder = EncoderResult.startFailure →
        (transcode_file cfg false j).result = Except.ok Outcome.failed) ∧
      (∀ c : Int, j.encoder = EncoderResult.exited c → c ≠ 0 →
        (transcode_file cfg false j).result = Except.ok Outcome.failed)) := by
  constructor
  · exact ⟨job_outcome cfg j, transcode_file_result_ok cfg j hroot⟩
  · intro hf hd
    constructor
    · intro he
      rw [transcode_file_result_ok cfg j hroot]
      simp [job_outcome, hf, hd, he]
    · intro c he hc
      rw [transcode_file_result_ok cfg j hroot]
      simp [job_outcome, hf, hd, he, hc]

/-- Witness for C6 at a job whose encoder fails to start. -/
theorem C6_witness :
    (∃ o, (transcode_file cfg0 false jobStartFail).result = Except.ok o) ∧
    (freshness_check jobStartFail.destExists jobStartFail.srcMtime
        jobStartFail.destMtime = false → cfg0.dryRun = false →
      (jobStartFail.encoder = EncoderResult.startFailure →
        (transcode_file cfg0 false jobStartFail).result = Except.ok Outcome.failed) ∧
      (∀ c : Int, jobStartFail.encoder = EncoderResult.exited c → c ≠ 0 →
        (transcode_file cfg0 false jobStartFail).result = Except.ok Outcome.failed)) :=
  C6_encoder_failure_returns_failed cfg0 jobStartFail (by decide)

/-! ## Claim C7 -/

/-- Claim C7: the freshness check returns "up to date" exactly when the
destination exists and its mtime is at least the source's; and a run
whose every job is up to date tallies each as skipped and never reaches
the encoder invocation. -/
theorem C7_freshness_semantics_and_rerun (cfg : RunConfig) (d : Bool) (s m : Int)
    (jobs : List JobSpec)
    (hwf : ∀ j ∈ jobs, j.underSourceRoot = true)
    (hfresh : ∀ j ∈ jobs, freshness_check j.destExists j.srcMtime j.destMtime = true) :
    (freshness_check d s m = true ↔ d = true ∧ s ≤ m) ∧
    runSingleOutcomes cfg jobs = Except.ok (List.replicate jobs.length Outcome.skipped) ∧
    (jobs.countP fun j => (transcode_file cfg false j).invokedEncoder) = 0 := by
  refine ⟨?_, ?_, ?_⟩
  · simp [freshness_check]
  · rw [runSingleOutcomes_eq_map cfg jobs hwf]
    have : jobs.map (job_outcome cfg) = List.replicate jobs.length Outcome.skipped := by
      rw [List.eq_replicate_iff]
      refine ⟨List.length_map jobs _, ?_⟩
      intro b hb
      obtain ⟨j, hj, rfl⟩ := List.mem_map.mp hb
      exact job_outcome_fresh cfg j (hfresh j hj)
    rw [this]
  · rw [List.countP_eq_zero]
    intro j hj
    rw [transcode_file_fresh cfg j (hwf j hj) (hfresh j hj)]
    simp

/-- Witness for C7 at a single up-to-date job. -/
theorem C7_witness :
    (freshness_check true 0 5 = true ↔ true = true ∧ (0 : Int) ≤ 5) ∧
    runSingleOutcomes cfg0 [jobFresh] =
      Except.ok (List.replicate [jobFresh].length Outcome.skipped) ∧
    ([jobFresh].countP fun j => (transcode_file cfg0 false j).invokedEncoder) = 0 :=
  C7_freshness_semantics_and_rerun cfg0 true 0 5 [jobFresh] (by decide) (by decide)

/-! ## Claim C4 -/

lemma transcodable_of_endswith (name : PyStr)
    (hend : py_endswith name flacExt = true) (hne : name ≠ flacExt) :
    transcodable_ext_ci name = true := by
  unfold transcodable_ext_ci
  rw [py_suffix_of_endswith_flac name hend hne]
  decide

/-- Claim C4 as stated: the two classifier outputs partition the regular
files - every regular file with the transcodable extension
(case-insensitively) is a transcode candidate, every other regular file
is a copy candidate, nothing is in both or neither, and non-regular
entries are in neither. -/
def classifier_partitions (tree : List FSEntry) : Prop :=
  ∀ e ∈ tree,
    (e.kind = EntryKind.regular →
      (transcodable_ext_ci e.name = true →
        e ∈ find_flac_files tree ∧ e ∉ find_non_flac_files tree) ∧
      (transcodable_ext_ci e.name = false →
        e ∈ find_non_flac_files tree ∧ e ∉ find_flac_files tree)) ∧
    (e.kind ≠ EntryKind.regular →
      e ∉ find_flac_files tree ∧ e ∉ find_non_flac_files tree)

/-- Claim C4 is false on the code: a regular file named "A.FLAC" has the
transcodable extension case-insensitively, yet `rglob("*.flac")`
(case-sensitive) misses it and `find_non_flac_files` excludes it via
`suffix.lower() != ".flac"`, so it lands in neither sequence. -/
theorem C4_counterexample :
    ¬ classifier_partitions [⟨['A', '.', 'F', 'L', 'A', 'C'], EntryKind.regular⟩] := by
  unfold classifier_partitions
  decide

/-- Claim C4, amended: `find_flac_files` returns exactly the entries -
regular files, directories and symlinks alike - whose name ends with
".flac" case-sensitively, and `find_non_flac_files` returns exactly the
entries that are files (following symlinks) whose lowercased suffix is
not ".flac".  On trees of regular files in which every case-insensitive
match of the extension is the literal lowercase ".flac" and no file is
named exactly ".flac", the two outputs do partition the files. -/
theorem C4_amended_classifier (tree : List FSEntry)
    (hreg : ∀ e ∈ tree, e.kind = EntryKind.regular)
    (hlow : ∀ e ∈ tree, transcodable_ext_ci e.name = true →
      py_endswith e.name flacExt = true)
    (hbare : ∀ e ∈ tree, e.name ≠ flacExt) :
    (∀ e : FSEntry, e ∈ find_flac_files tree ↔
      e ∈ tree ∧ py_endswith e.name flacExt = true) ∧
    (∀ e : FSEntry, e ∈ find_non_flac_files tree ↔
      e ∈ tree ∧ is_file e = true ∧ transcodable_ext_ci e.name = false) ∧
    (∀ e ∈ tree,
      (e ∈ find_flac_files tree ↔ transcodable_ext_ci e.name = true) ∧
      (e ∈ find_non_flac_files tree ↔ transcodable_ext_ci e.name = false) ∧
      ¬(e ∈ find_flac_files tree ∧ e ∈ find_non_flac_files tree)) := by
  have hflac : ∀ e : FSEntry, e ∈ find_flac_files tree ↔
      e ∈ tree ∧ py_endswith e.name flacExt = true := by
    intro e
    simp [find_flac_files, List.mem_filter]
  have hnon : ∀ e : FSEntry, e ∈ find_non_flac_files tree ↔
      e ∈ tree ∧ is_file e = true ∧ transcodable_ext_ci e.name = false := by
    intro e
    simp [find_non_flac_files, List.mem_filter, Bool.and_eq_true, Bool.not_eq_true']
  refine ⟨hflac, hnon, ?_⟩
  intro e he
  have hk := hreg e he
  have hef : is_file e = true := by simp [is_file, hk]
  have hiff1 : e ∈ find_flac_files tree ↔ transcodable_ext_ci e.name = true := by
    rw [hflac e]
    constructor
    · rintro ⟨-, hend⟩
      exact transcodable_of_endswith e.name hend (hbare e he)
    · intro htc
      exact ⟨he, hlow e he htc⟩
  have hiff2 : e ∈ find_non_flac_files tree ↔ transcodable_ext_ci e.name = false := by
    rw [hnon e]
    constructor
    · rintro ⟨-, -, htc⟩
      exact htc
    · intro htc
      exact ⟨he, hef, htc⟩
  refine ⟨hiff1, hiff2, ?_⟩
  rintro ⟨h1, h2⟩
  rw [hiff1] at h1
  rw [hiff2] at h2
  rw [h1] at h2
  cases h2

/-- Witness for the amended C4 at a two-file tree. -/
theorem C4_amended_classifier_witness :
    (∀ e : FSEntry,
      e ∈ find_flac_files
          [⟨['a', '.', 'f', 'l', 'a', 'c'], EntryKind.regular⟩,
           ⟨['n', 'o', 't', 'e', 's', '.', 't', 'x', 't'], EntryKind.regular⟩] ↔
      e ∈ [⟨['a', '.', 'f', 'l', 'a', 'c'], EntryKind.regular⟩,
           ⟨['n', 'o', 't', 'e', 's', '.', 't', 'x', 't'], EntryKind.regular⟩] ∧
        py_endswith e.name flacExt = true) ∧
    (∀ e : FSEntry,
      e ∈ find_non_flac_files
          [⟨['a', '.', 'f', 'l', 'a', 'c'], EntryKind.regular⟩,
           ⟨['n', 'o', 't', 'e', 's', '.', 't', 'x', 't'], EntryKind.regular⟩] ↔
      e ∈ [⟨['a', '.', 'f', 'l', 'a', 'c'], EntryKind.regular⟩,
           ⟨['n', 'o', 't', 'e', 's', '.', 't', 'x', 't'], EntryKind.regular⟩] ∧
        is_file e = true ∧ transcodable_ext_ci e.name = false) ∧
    (∀ e ∈ [⟨['a', '.', 'f', 'l', 'a', 'c'], EntryKind.regular⟩,
            ⟨['n', 'o', 't', 'e', 's', '.', 't', 'x', 't'], EntryKind.regular⟩],
      (e ∈ find_flac_files
          [⟨['a', '.', 'f', 'l', 'a', 'c'], EntryKind.regular⟩,
           ⟨['n', 'o', 't', 'e', 's', '.', 't', 'x', 't'], EntryKind.regular⟩] ↔
        transcodable_ext_ci e.name = true) ∧
      (e ∈ find_non_flac_files
          [⟨['a', '.', 'f', 'l', 'a', 'c'], EntryKind.regular⟩,
           ⟨['n', 'o', 't', 'e', 's', '.', 't', 'x', 't'], EntryKind.regular⟩] ↔
        transcodable_ext_ci e.name = false) ∧
      ¬(e ∈ find_flac_files
          [⟨['a', '.', 'f', 'l', 'a', 'c'], EntryKind.regular⟩,
           ⟨['n', 'o', 't', 'e', 's', '.', 't', 'x', 't'], EntryKind.regular⟩] ∧
        e ∈ find_non_flac_files
          [⟨['a', '.', 'f', 'l', 'a', 'c'], EntryKind.regular⟩,
           ⟨['n', 'o', 't', 'e', 's', '.', 't', 'x', 't'], EntryKind.regular⟩])) :=
  C4_amended_classifier
    [⟨['a', '.', 'f', 'l', 'a', 'c'], EntryKind.regular⟩,
     ⟨['n', 'o', 't', 'e', 's', '.', 't', 'x', 't'], EntryKind.regular⟩]
    (by decide) (by decide) (by decide)

/-! ## Claim C5 -/

lemma transcode_effects_dry (cfg : RunConfig) (j : JobSpec) (hdry : cfg.dryRun = true) :
    ∀ op ∈ (transcode_file cfg false j).effects, ∃ p, op = FSOp.mkdirParents p := by
  intro op hop
  cases hu : j.underSourceRoot with
  | false =>
    rw [transcode_file_offtree cfg j hu] at hop
    simp at hop
  | true =>
    cases hf : freshness_check j.destExists j.srcMtime j.destMtime with
    | true =>
      rw [transcode_file_fresh cfg j hu hf] at hop
      simp at hop
      exact ⟨_, hop⟩
    | false =>
      have hstep : transcode_file cfg false j =
          ⟨.ok .dryRun, false,
            [.mkdirParents (opus_dest_path cfg j.relPath).dropLast]⟩ := by
        simp [transcode_file, hu, hf, hdry]
      rw [hstep] at hop
      simp at hop
      exact ⟨_, hop⟩

lemma transcode_result_dry (cfg : RunConfig) (j : JobSpec) (hdry : cfg.dryRun = true)
    (hu : j.underSourceRoot = true)
    (hf : freshness_check j.destExists j.srcMtime j.destMtime = false) :
    (transcode_file cfg false j).result = Except.ok Outcome.dryRun := by
  simp [transcode_file, hu, hf, hdry]

lemma copy_effects_dry (cfg : RunConfig) (c : CopySpec) (hdry : cfg.dryRun = true) :
    ∀ op ∈ (copy_non_flac_file cfg c).effects, ∃ p, op = FSOp.mkdirParents p := by
  intro op hop
  cases hu : c.underSourceRoot with
  | false =>
    have : copy_non_flac_file cfg c = ⟨.error .valueError, []⟩ := by
      simp [copy_non_flac_file, hu]
    rw [this] at hop
    simp at hop
  | true =>
    cases hf : freshness_check c.destExists c.srcMtime c.destMtime with
    | true =>
      have : copy_non_flac_file cfg c =
          ⟨.ok .skipped, [.mkdirParents (cfg.destDir ++ c.relPath).dropLast]⟩ := by
        simp [copy_non_flac_file, hu, hf]
      rw [this] at hop
      simp at hop
      exact ⟨_, hop⟩
    | false =>
      have : copy_non_flac_file cfg c =
          ⟨.ok .dryRun, [.mkdirParents (cfg.destDir ++ c.relPath).dropLast]⟩ := by
        simp [copy_non_flac_file, hu, hf, hdry]
      rw [this] at hop
      simp at hop
      exact ⟨_, hop⟩

lemma copy_result_dry (cfg : RunConfig) (c : CopySpec) (hdry : cfg.dryRun = true)
    (hu : c.underSourceRoot = true)
    (hf : freshness_check c.destExists c.srcMtime c.destMtime = false) :
    (copy_non_flac_file cfg c).result = Except.ok CopyOutcome.dryRun := by
  simp [copy_non_flac_file, hu, hf, hdry]

/-- Claim C5 as stated: in dry-run mode no file under the destination
root is ever created or modified, and every eligible job is tallied
dry-run. -/
def dry_run_touches_no_dest_file : Prop :=
  ∀ (cfg : RunConfig) (jobs : List JobSpec) (copies : List CopySpec),
    cfg.dryRun = true →
    ∀ op ∈ run_effects cfg jobs copies, op_touches_file_under cfg.destDir op = false

/-- Claim C5 is false on the code: even a dry run with no jobs at all
creates the main log file under the destination root - `setup_logging`
(lines 58-81) opens two `FileHandler`s on paths inside `dest_dir`
unconditionally. -/
theorem C5_counterexample : ¬ dry_run_touches_no_dest_file := by
  intro h
  have hmem : FSOp.createFile (log_file_path cfg0dry) ∈ run_effects cfg0dry [] [] := by
    decide
  have := h cfg0dry [] [] rfl _ hmem
  exact absurd this (by decide)

/-- Claim C5, amended: in dry-run mode the run writes no transcoded
output and copies no file - its only filesystem effects are directory
creations plus the two log files it always creates under the destination
root - and every eligible (on-tree, not up-to-date) job is tallied
dry-run. -/
theorem C5_amended_dry_run (cfg : RunConfig) (jobs : List JobSpec)
    (copies : List CopySpec) (hdry : cfg.dryRun = true) :
    (∀ op ∈ run_effects cfg jobs copies,
      (∃ p, op = FSOp.mkdirParents p) ∨
      op = FSOp.createFile (log_file_path cfg) ∨
      op = FSOp.createFile (error_log_file_path cfg)) ∧
    (∀ j ∈ jobs, j.underSourceRoot = true →
      freshness_check j.destExists j.srcMtime j.destMtime = false →
      (transcode_file cfg false j).result = Except.ok Outcome.dryRun) ∧
    (∀ c ∈ copies, c.underSourceRoot = true →
      freshness_check c.destExists c.srcMtime c.destMtime = false →
      (copy_non_flac_file cfg c).result = Except.ok CopyOutcome.dryRun) := by
  refine ⟨?_, ?_, ?_⟩
  · intro op hop
    rw [run_effects, List.mem_append, List.mem_append] at hop
    rcases hop with (hini | hjob) | hcopy
    · rw [tool_init_effects] at hini
      simp only [List.mem_cons, List.not_mem_nil, or_false] at hini
      rcases hini with rfl | rfl | rfl
      · exact Or.inl ⟨_, rfl⟩
      · exact Or.inr (Or.inl rfl)
      · exact Or.inr (Or.inr rfl)
    · rw [List.mem_flatMap] at hjob
      obtain ⟨j, _, hop⟩ := hjob
      exact Or.inl (transcode_effects_dry cfg j hdry op hop)
    · rw [List.mem_flatMap] at hcopy
      obtain ⟨c, _, hop⟩ := hcopy
      exact Or.inl (copy_effects_dry cfg c hdry op hop)
  · intro j _ hu hf
    exact transcode_result_dry cfg j hdry hu hf
  · intro c _ hu hf
    exact copy_result_dry cfg c hdry hu hf

/-- Witness for the amended C5 at a dry run over one job and one copy. -/
theorem C5_amended_dry_run_witness :
    (∀ op ∈ run_effects cfg0dry [jobOk] [copyOk],
      (∃ p, op = FSOp.mkdirParents p) ∨
      op = FSOp.createFile (log_file_path cfg0dry) ∨
      op = FSOp.createFile (error_log_file_path cfg0dry)) ∧
    (∀ j ∈ [jobOk], j.underSourceRoot = true →
      freshness_check j.destExists j.srcMtime j.destMtime = false →
      (transcode_file cfg0dry false j).result = Except.ok Outcome.dryRun) ∧
    (∀ c ∈ [copyOk], c.underSourceRoot = true →
      freshness_check c.destExists c.srcMtime c.destMtime = false →
      (copy_non_flac_file cfg0dry c).result = Except.ok CopyOutcome.dryRun) :=
  C5_amended_dry_run cfg0dry [jobOk] [copyOk] rfl

/-! ## Claim C8 -/

lemma all_eq_of_eq_on_mem {α : Type} (f g : α → Bool) :
    ∀ xs : List α, (∀ x ∈ xs, f x = g x) → xs.all f = xs.all g := by
  intro xs
  induction xs with
  | nil => intro _; rfl
  | cons y ys ih =>
    intro hx
    have hy : f y = g y := hx y (List.mem_cons_self y ys)
    have hys : ys.all f = ys.all g := ih fun z hz => hx z (List.mem_cons_of_mem _ hz)
    simp only [List.all_cons, hy, hys]

lemma py_isdigit_char_ascii (c : Char) (h : c.toNat < 128) :
    py_isdigit_char c = c.isDigit := by
  have h2 : (c == '²') = false := by
    cases hb : (c == '²') with
    | false => rfl
    | true =>
      have : c = '²' := by simpa using hb
      subst this
      exact absurd h (by decide)
  have h3 : (c == '³') = false := by
    cases hb : (c == '³') with
    | false => rfl
    | true =>
      have : c = '³' := by simpa using hb
      subst this
      exact absurd h (by decide)
  have h4 : (c == '¹') = false := by
    cases hb : (c == '¹') with
    | false => rfl
    | true =>
      have : c = '¹' := by simpa using hb
      subst this
      exact absurd h (by decide)
  have h5 : decide (0x660 ≤ c.toNat) = false := by
    simp only [decide_eq_false_iff_not]
    omega
  simp [py_isdigit_char, h2, h3, h4, h5]

/-- Claim C8 as stated: the bitrate is accepted exactly when it matches
the pattern `[0-9]+k` anchored at both ends. -/
def bitrate_accepted_iff_pattern : Prop :=
  ∀ b : PyStr, validate_bitrate_accepts b = matches_bitrate_pattern b

/-- Claim C8 is false on the code: Python's `str.isdigit` accepts
non-ASCII digit characters, so the bitrate "²k" (superscript two) passes
`validate_bitrate` although it does not match `[0-9]+k`. -/
theorem C8_counterexample : ¬ bitrate_accepted_iff_pattern := by
  intro h
  exact absurd (h ['²', 'k']) (by decide)

/-- Claim C8, amended: the bitrate is accepted iff it ends in 'k' and the
rest is a nonempty run of characters accepted by Python `str.isdigit`
(a strict superset of `[0-9]` containing, e.g., '²'); on all-ASCII
strings this coincides with the pattern `[0-9]+k`; and every rejected
bitrate aborts the run with exit status 1 before any traversal. -/
theorem C8_amended_bitrate (b : PyStr) (found : Bool) (jobsArg : Option Int)
    (hbad : validate_bitrate_accepts b = false) :
    (∀ s : PyStr, validate_bitrate_accepts s = true ↔
      (py_endswith s ['k'] = true ∧ s.dropLast ≠ [] ∧
        ∀ c ∈ s.dropLast, py_isdigit_char c = true)) ∧
    (∀ s : PyStr, (∀ c ∈ s, c.toNat < 128) →
      validate_bitrate_accepts s = matches_bitrate_pattern s) ∧
    run_phases b found jobsArg = [RunPhase.configAbort 1] ∧
    RunPhase.traversal ∉ run_phases b found jobsArg := by
  refine ⟨?_, ?_, ?_, ?_⟩
  · intro s
    simp [validate_bitrate_accepts, py_str_isdigit, Bool.and_eq_true,
      List.all_eq_true, List.isEmpty_iff, and_assoc]
  · intro s hs
    unfold validate_bitrate_accepts matches_bitrate_pattern py_str_isdigit
    rw [all_eq_of_eq_on_mem py_isdigit_char Char.isDigit s.dropLast
      (fun c hc => py_isdigit_char_ascii c (hs c (List.dropLast_subset s hc)))]
    rw [← Bool.and_assoc]
  · simp [run_phases, hbad]
  · simp [run_phases, hbad]

/-- Witness for the amended C8 at the malformed bitrate "abc". -/
theorem C8_amended_bitrate_witness :
    (∀ s : PyStr, validate_bitrate_accepts s = true ↔
      (py_endswith s ['k'] = true ∧ s.dropLast ≠ [] ∧
        ∀ c ∈ s.dropLast, py_isdigit_char c = true)) ∧
    (∀ s : PyStr, (∀ c ∈ s, c.toNat < 128) →
      validate_bitrate_accepts s = matches_bitrate_pattern s) ∧
    run_phases ['a', 'b', 'c'] true none = [RunPhase.configAbort 1] ∧
    RunPhase.traversal ∉ run_phases ['a', 'b', 'c'] true none :=
  C8_amended_bitrate ['a', 'b', 'c'] true none (by decide)

/-! ## Claim C9 -/

lemma runSingleOutcomes_error_of_offtree (cfg : RunConfig) (pre post : List JobSpec)
    (j : JobSpec) (hpre : ∀ p ∈ pre, p.underSourceRoot = true)
    (hj : j.underSourceRoot = false) :
    runSingleOutcomes cfg (pre ++ j :: post) = Except.error PyError.valueError := by
  induction pre with
  | nil =>
    simp [runSingleOutcomes, transcode_file_offtree cfg j hj]
  | cons p rest ih =>
    have hp := hpre p (List.mem_cons_self p rest)
    have hr := ih fun x hx => hpre x (List.mem_cons_of_mem _ hx)
    simp [runSingleOutcomes, transcode_file_result_ok cfg p hp, hr]

/-- Claim C9 as stated: a job whose source path is not under the source
root is tallied "failed" and the error never propagates to the
scheduler - so every single-threaded run returns a complete outcome
list with "failed" at each off-tree position. -/
def path_error_fatal_for_job_only : Prop :=
  ∀ (cfg : RunConfig) (jobs : List JobSpec),
    ∃ os, runSingleOutcomes cfg jobs = Except.ok os ∧ os.length = jobs.length ∧
      ∀ i j, jobs.get? i = some j → j.underSourceRoot = false →
        os.get? i = some Outcome.failed

/-- Claim C9 is false on the code: in the single-threaded path (lines
355-369) only `KeyboardInterrupt` is caught, so the `ValueError` raised
by `relative_to` on an off-tree job propagates and aborts the run with
no outcome recorded. -/
theorem C9_counterexample : ¬ path_error_fatal_for_job_only := by
  intro h
  obtain ⟨os, hos, -, -⟩ := h cfg0 [jobBad]
  have hval : runSingleOutcomes cfg0 [jobBad] = Except.error PyError.valueError := by
    decide
  rw [hval] at hos
  cases hos

/-- Claim C9, amended: in the multi-threaded scheduler the off-tree
job's `ValueError` is caught by the result-collection loop and the job is
tallied "failed" without crashing the pool; but in the single-threaded
scheduler the exception propagates uncaught and aborts the run, and the
copy phase likewise propagates it. -/
theorem C9_amended_path_error (cfg : RunConfig) (pre post : List JobSpec)
    (j : JobSpec) (c : CopySpec)
    (hpre : ∀ p ∈ pre, p.underSourceRoot = true)
    (hj : j.underSourceRoot = false) (hc : c.underSourceRoot = false) :
    (runMultiOutcomes cfg (pre ++ j :: post)).get? pre.length = some Outcome.failed ∧
    runSingleOutcomes cfg (pre ++ j :: post) = Except.error PyError.valueError ∧
    (copy_non_flac_file cfg c).result = Except.error PyError.valueError := by
  refine ⟨?_, runSingleOutcomes_error_of_offtree cfg pre post j hpre hj, ?_⟩
  · unfold runMultiOutcomes
    rw [List.get?_map, List.get?_append_right (le_refl _)]
    simp [transcode_file_offtree cfg j hj]
  · simp [copy_non_flac_file, hc]

/-- Witness for the amended C9: one good job followed by an off-tree
job, plus an off-tree copy. -/
theorem C9_amended_path_error_witness :
    (runMultiOutcomes cfg0 ([jobOk] ++ jobBad :: [])).get? [jobOk].length =
      some Outcome.failed ∧
    runSingleOutcomes cfg0 ([jobOk] ++ jobBad :: []) =
      Except.error PyError.valueError ∧
    (copy_non_flac_file cfg0 copyBad).result = Except.error PyError.valueError :=
  C9_amended_path_error cfg0 [jobOk] [] jobBad copyBad (by decide) (by decide)
    (by decide)

/-! ## Claim C10 -/

/-- Claim C10: in an uncancelled run - whatever the worker count and
completion order of the transcode phase - no pass-through copy starts
before every transcode outcome is tallied (`copy_non_flac_files` is
called only after the transcode loop, line 397), and the copies are
strictly sequential: between the starts of two copies the earlier copy
has finished. -/
theorem C10_copies_after_transcodes (cfg : RunConfig)
    (completionOrder : List JobSpec) (copies : List CopySpec) :
    copiesAfterTallies (run_trace cfg completionOrder copies) ∧
    copiesSequential (run_trace cfg completionOrder copies) := by
  refine ⟨copiesAfterTallies_run_trace cfg completionOrder copies, ?_⟩
  unfold run_trace
  apply copiesSequential_append
  · intro e he a
    obtain ⟨k, o, rfl⟩ := mem_tallyEvents 0 _ e he
    simp
  · exact copiesSequential_copyPhaseEvents cfg copies 0

/-- Witness for C10 at a concrete run with one job and two copies. -/
theorem C10_copies_after_transcodes_witness :
    copiesAfterTallies (run_trace cfg0 [jobOk] [copyOk, copyOk2]) ∧
    copiesSequential (run_trace cfg0 [jobOk] [copyOk, copyOk2]) :=
  C10_copies_after_transcodes cfg0 [jobOk] [copyOk, copyOk2]

end FlacToOpus
